import Mathlib

/-!
Verification of the tender-pipeline core (`src/main.py`, `src/db/db.py`).

The SQLite table `tenders` is modelled as a `Store`: a list of `Tender`
rows together with the AUTOINCREMENT counter.  Each database or workflow
operation of the source is translated into a pure function over `Store`.
External collaborators (the LLM classifier, the Telegram channel, sqlite
errors) enter as explicit parameters or `Except` values.
-/

/-- One row of the `tenders` table (`db.py`, `create_table`) combined with
the `Tender` pydantic model of `main.py`.  `created_at` is never read by
the code under verification and is omitted. -/
structure Tender where
  id : Nat
  title : String
  organization : String
  posted_date : String
  closing_date : String
  location : String
  url : String
  tsource : String
  tender_content : String
  state : String
  is_sent : Bool
deriving DecidableEq, Repr

/-- The persistent store: the rows of the `tenders` table plus the next
AUTOINCREMENT id. -/
structure Store where
  rows : List Tender
  nextId : Nat
deriving DecidableEq, Repr

/-- A value passed to `DB.update_tender_field`: the code stores strings in
the text columns and a boolean in `is_sent`. -/
inductive FieldValue where
  | str (s : String)
  | bool (b : Bool)
deriving DecidableEq, Repr

/-- The whitelist of mutable columns checked by `DB.update_tender_field`
(`db.py` lines 139-140). -/
def fieldWhitelist : List String :=
  ["title", "organization", "posted_date", "closing_date",
   "location", "url", "source", "tender_content", "state", "is_sent"]

/-- Effect of `UPDATE tenders SET field = value` on a single row. -/
def setField (r : Tender) (field : String) (v : FieldValue) : Tender :=
  match v with
  | .str s =>
    if field == "title" then { r with title := s }
    else if field == "organization" then { r with organization := s }
    else if field == "posted_date" then { r with posted_date := s }
    else if field == "closing_date" then { r with closing_date := s }
    else if field == "location" then { r with location := s }
    else if field == "url" then { r with url := s }
    else if field == "source" then { r with tsource := s }
    else if field == "tender_content" then { r with tender_content := s }
    else if field == "state" then { r with state := s }
    else r
  | .bool b =>
    if field == "is_sent" then { r with is_sent := b } else r

/-- Model of `DB.update_tender_field` (`db.py` lines 137-158): raises
`ValueError("Invalid field name")` for a field outside the whitelist,
otherwise updates every row whose `id` matches and reports whether any
row was affected (`rows_affected > 0`). -/
def update_tender_field (rows : List Tender) (tid : Nat) (field : String)
    (v : FieldValue) : Except String (List Tender × Bool) :=
  if fieldWhitelist.contains field then
    .ok (rows.map (fun r => if r.id == tid then setField r field v else r),
         rows.any (fun r => r.id == tid))
  else
    .error "Invalid field name"

/-- Model of `DB.tender_exists` (`db.py` lines 160-182): `COUNT(*) > 0` over rows
matching both the title and the posted date. -/
def tender_exists (st : Store) (title posted : String) : Bool :=
  st.rows.any (fun r => r.title == title && r.posted_date == posted)

/-- Model of `DB.count_tenders_by_state` (`db.py` lines 79-103):
`SELECT COUNT(*) FROM tenders WHERE state = ?`. -/
def count_tenders_by_state (st : Store) (s : String) : Nat :=
  st.rows.countP (fun r => r.state == s)

/-- Model of `DB.get_tenders_by_state` (`db.py` lines 105-135).  The `LIMIT` clause
is appended only when the Python value `limit` is truthy, hence the
`n != 0` guard. -/
def get_tenders_by_state (st : Store) (s : String) (limit : Option Nat) :
    List Tender :=
  let res := st.rows.filter (fun r => r.state == s)
  match limit with
  | none => res
  | some n => if n != 0 then res.take n else res

/-- Stable insertion step realising `ORDER BY posted_date DESC`. -/
def insertByDate (t : Tender) : List Tender → List Tender
  | [] => [t]
  | h :: rest =>
    if h.posted_date ≤ t.posted_date then t :: h :: rest
    else h :: insertByDate t rest

/-- Sort rows by `posted_date` descending (the `ORDER BY` of
`DB.get_tenders_by_state_and_sent`). -/
def sortByPostedDesc (l : List Tender) : List Tender :=
  l.foldr insertByDate []

/-- Model of `DB.get_tenders_by_state_and_sent` (`db.py` lines 184-204):
`WHERE state = ? AND is_sent = ? ORDER BY posted_date DESC`. -/
def get_tenders_by_state_and_sent (st : Store) (s : String) (sent : Bool) :
    List Tender :=
  sortByPostedDesc (st.rows.filter (fun r => r.state == s && r.is_sent == sent))

/-- Model of `TenderRepository.fetch_waiting_tenders` (`main.py` lines 64-71) on the
happy path: `get_tenders_by_state("waiting_for_filtering", limit=8)`. -/
def fetch_waiting_tenders (st : Store) : List Tender :=
  get_tenders_by_state st "waiting_for_filtering" (some 8)

/-- Variant of `TenderRepository.fetch_waiting_tenders` with the repository's
`try/except` made explicit: a raised store error is caught and turns into
an empty list (`main.py` lines 69-71). -/
def fetch_waiting_tendersE (st : Store) (dbOk : Bool) : List Tender :=
  if dbOk then fetch_waiting_tenders st else []

/-- Model of `TenderRepository.update_tender_state` (`main.py` lines 85-91): calls
`update_tender_field(id, "state", new_state)`; exceptions are caught and
leave the store as it was. -/
def update_tender_state (st : Store) (tid : Nat) (ns : String) : Store :=
  match update_tender_field st.rows tid "state" (.str ns) with
  | .ok (rows', _) => { st with rows := rows' }
  | .error _ => st

/-- Model of `TenderRepository.mark_tender_as_sent` (`main.py` lines 143-149):
`update_tender_field(id, "is_sent", True)` with exceptions caught. -/
def mark_tender_as_sent (st : Store) (tid : Nat) : Store :=
  match update_tender_field st.rows tid "is_sent" (.bool true) with
  | .ok (rows', _) => { st with rows := rows' }
  | .error _ => st

/-- The classification decision of `tender_filter_node` (`main.py` line
194): `any(qt.id == tender.id for qt in qualified_tenders.tenders)`,
followed by line 195's choice of the new state. -/
def classify_state (qts : List Tender) (tid : Nat) : String :=
  if qts.any (fun qt => qt.id == tid) then "qualified" else "unqualified"

/-- One round of `tender_filter_node` (`main.py` lines 169-199) given the
classifier's returned listing `qts`: fetch a batch of at most 8 waiting
tenders; if empty return unchanged, otherwise transition every batch
member to `qualified` or `unqualified`. -/
def tender_filter_node (st : Store) (qts : List Tender) : Store :=
  let waiting := fetch_waiting_tenders st
  if waiting.isEmpty then st
  else
    waiting.foldl
      (fun acc t => update_tender_state acc t.id (classify_state qts t.id)) st

/-- Variant of `tender_filter_node` with its two external failure modes explicit:
`dbOk = false` models a store error inside `fetch_waiting_tenders` (caught
by the repository and turned into an empty batch), while an `Except.error`
classifier result models `llm_with_structure.invoke` raising, which
propagates out of the node uncaught. -/
def tender_filter_nodeE (st : Store) (dbOk : Bool)
    (clRes : Except String (List Tender)) : Except String Store :=
  let waiting := fetch_waiting_tendersE st dbOk
  if waiting.isEmpty then .ok st
  else
    match clRes with
    | .error e => .error e
    | .ok qts =>
      .ok (waiting.foldl
        (fun acc t => update_tender_state acc t.id (classify_state qts t.id)) st)

/-- Model of `should_continue_filtering` (`main.py` lines 202-207): loop again while
the count of waiting tenders is positive, otherwise route to `END`. -/
def should_continue_filtering (st : Store) : String :=
  if 0 < count_tenders_by_state st "waiting_for_filtering" then "tender_filter"
  else "END"

/-- The LangGraph classification loop (`create_workflow`, `main.py` lines
360-367): run `tender_filter_node`, then repeat while
`should_continue_filtering` routes back.  `os` supplies one classifier
result per round; the returned triple is the committed store, the error
that aborted the invocation (if any), and the number of rounds in which
the classifier was invoked. -/
def filter_loop (st : Store) (os : List (Except String (List Tender))) :
    Store × Option String × Nat :=
  match os with
  | [] => (st, none, 0)
  | o :: rest =>
    if (fetch_waiting_tenders st).isEmpty then (st, none, 0)
    else
      match o with
      | .error e => (st, some e, 1)
      | .ok qts =>
        let st' := tender_filter_node st qts
        if 0 < count_tenders_by_state st' "waiting_for_filtering" then
          let r := filter_loop st' rest
          (r.1, r.2.1, r.2.2 + 1)
        else (st', none, 1)

/-- A raw candidate record as produced by a scraper and consumed by
`process_scraped_tenders`; a missing value is the empty string. -/
structure RawTender where
  title : String
  organization : String
  posted_date : String
  closing_date : String
  location : String
  url : String
  rsource : String
  tender_content : String
deriving DecidableEq, Repr

/-- Split a character list at every dash, the separator structure that
`datetime.strptime(s, "%Y-%m-%d")` imposes. -/
def splitDash : List Char → List (List Char)
  | [] => [[]]
  | c :: rest =>
    let r := splitDash rest
    if c == '-' then [] :: r
    else
      match r with
      | [] => [[c]]
      | g :: gs => (c :: g) :: gs

/-- Numeric value of a digit string. -/
def digitsToNat (cs : List Char) : Nat :=
  cs.foldl (fun n c => 10 * n + (c.toNat - '0'.toNat)) 0

/-- Gregorian leap-year rule used by `datetime`. -/
def isLeapYear (y : Nat) : Bool :=
  (y % 4 == 0 && y % 100 != 0) || (y % 400 == 0)

/-- Number of days of month `m` in year `y`, as validated by the
`datetime` constructor. -/
def daysInMonth (y m : Nat) : Nat :=
  if m == 2 then (if isLeapYear y then 29 else 28)
  else if m == 4 || m == 6 || m == 9 || m == 11 then 30
  else 31

/-- Model of `is_valid_date` (`main.py` lines 273-282): false for a missing or empty
value, otherwise the success of `datetime.strptime(date_str, "%Y-%m-%d")`.
CPython's `%Y` matches exactly four digits, while `%m` and `%d` match one
or two digits; the `datetime` constructor then requires a year of at least
1 and a day within the month's length. -/
def is_valid_date (s : String) : Bool :=
  if s == "" then false
  else
    match splitDash s.toList with
    | [ys, ms, ds] =>
      let y := digitsToNat ys
      let m := digitsToNat ms
      let d := digitsToNat ds
      ys.length == 4 && ys.all Char.isDigit &&
      (ms.length == 1 || ms.length == 2) && ms.all Char.isDigit &&
      (ds.length == 1 || ds.length == 2) && ds.all Char.isDigit &&
      decide (1 ≤ y) && decide (1 ≤ m) && decide (m ≤ 12) &&
      decide (1 ≤ d) && decide (d ≤ daysInMonth y m)
    | _ => false

/-- Modelled from the spec: "strict `YYYY-MM-DD` format" — a four digit
year, a dash, a two digit zero-padded month, a dash and a two digit
zero-padded day denoting a valid calendar date.  This definition follows
the spec's wording only, for comparison with the source's
`is_valid_date`. -/
def spec_strict_date (s : String) : Bool :=
  match splitDash s.toList with
  | [ys, ms, ds] =>
    let y := digitsToNat ys
    let m := digitsToNat ms
    let d := digitsToNat ds
    ys.length == 4 && ys.all Char.isDigit &&
    ms.length == 2 && ms.all Char.isDigit &&
    ds.length == 2 && ds.all Char.isDigit &&
    decide (1 ≤ y) && decide (1 ≤ m) && decide (m ≤ 12) &&
    decide (1 ≤ d) && decide (d ≤ daysInMonth y m)
  | _ => false

/-- The date sanitisation of `process_scraped_tenders` (`main.py` lines
258-263): each invalid date is replaced by the empty string, the record is
kept. -/
def sanitize_tender (t : RawTender) : RawTender :=
  { t with
    posted_date := if is_valid_date t.posted_date then t.posted_date else ""
    closing_date := if is_valid_date t.closing_date then t.closing_date else "" }

/-- Model of `TenderRepository.insert_new_tender` and `DB.insert_tender`: append a row
with the table defaults `state = waiting_for_filtering`, `is_sent = 0` and
the next AUTOINCREMENT id. -/
def insert_new_tender (st : Store) (t : RawTender) : Store :=
  { rows := st.rows ++
      [{ id := st.nextId, title := t.title, organization := t.organization,
         posted_date := t.posted_date, closing_date := t.closing_date,
         location := t.location, url := t.url, tsource := t.rsource,
         tender_content := t.tender_content,
         state := "waiting_for_filtering", is_sent := false }],
    nextId := st.nextId + 1 }

/-- Model of `process_scraped_tenders` (`main.py` lines 254-269): sanitise the
dates of each candidate, skip it when `(title, posted_date)` already
exists, insert it otherwise; the second component counts the new
insertions. -/
def process_scraped_tenders (st : Store) (ts : List RawTender) : Store × Nat :=
  ts.foldl
    (fun acc t =>
      let t' := sanitize_tender t
      if tender_exists acc.1 t'.title t'.posted_date then acc
      else (insert_new_tender acc.1 t', acc.2 + 1))
    (st, 0)

/-- Model of `TenderRepository.fetch_qualified_unsent_tenders` (`main.py` lines
131-141) on the happy path. -/
def fetch_qualified_unsent_tenders (st : Store) : List Tender :=
  get_tenders_by_state_and_sent st "qualified" false

/-- Model of the send loop of `main.py` lines 308-335: one send
attempt per fetched tender; `sendOk` is the Telegram channel's verdict
for a given tender id (covering both a raised exception and a result
without `success`).  On success the tender is marked sent; on failure
the loop simply continues.  Returns the store, the number of attempts
and the number of successful sends. -/
def send_tender_notifications (st : Store) (sendOk : Nat → Bool)
    (tenders : List Tender) : Store × Nat × Nat :=
  tenders.foldl
    (fun acc t =>
      if sendOk t.id then
        (mark_tender_as_sent acc.1 t.id, acc.2.1 + 1, acc.2.2 + 1)
      else (acc.1, acc.2.1 + 1, acc.2.2))
    (st, 0, 0)

/-- Model of `notification_node` (`main.py` lines 284-306): fetch the qualified,
unsent tenders; if none, do nothing, otherwise run the send loop. -/
def notification_node (st : Store) (sendOk : Nat → Bool) : Store × Nat × Nat :=
  let qualified := fetch_qualified_unsent_tenders st
  if qualified.isEmpty then (st, 0, 0)
  else send_tender_notifications st sendOk qualified

/-- Per-row effect of one classification round: the row as transformed by
the sequence of `UPDATE` statements issued for the batch `ts`. -/
def classifyElem (qts ts : List Tender) (r : Tender) : Tender :=
  ts.foldl
    (fun r t =>
      if r.id == t.id then setField r "state" (.str (classify_state qts t.id))
      else r) r

/-- Per-row effect of the notification send loop over the fetched list
`ts`: the row as transformed by the `UPDATE` statements of the successful
sends. -/
def sentElem (sendOk : Nat → Bool) (ts : List Tender) (r : Tender) : Tender :=
  ts.foldl
    (fun r t =>
      if sendOk t.id then
        (if r.id == t.id then setField r "is_sent" (.bool true) else r)
      else r) r

/-- Current state of the row with id `tid`, read off the store. -/
def stateOf (st : Store) (tid : Nat) : Option String :=
  (st.rows.find? (fun r => r.id == tid)).map Tender.state

/-- Current sent flag of the row with id `tid`, read off the store. -/
def isSentOf (st : Store) (tid : Nat) : Option Bool :=
  (st.rows.find? (fun r => r.id == tid)).map Tender.is_sent


/-- A concrete sample row used by the concrete evaluation theorems. -/
def sampleTender (i : Nat) (s : String) (sent : Bool) : Tender :=
  { id := i, title := "Build ERP", organization := "UNDP",
    posted_date := "2024-01-10", closing_date := "2024-02-10",
    location := "Hargeisa", url := "https://example.org/t",
    tsource := "globaltenders", tender_content := "ERP implementation",
    state := s, is_sent := sent }

/-- A store holding `n` records waiting for filtering, with ids 1..n. -/
def waitingStore (n : Nat) : Store :=
  { rows := (List.range n).map
      (fun i => sampleTender (i + 1) "waiting_for_filtering" false),
    nextId := n + 1 }

/-- A store holding one qualified, unsent record. -/
def qualifiedStore : Store :=
  { rows := [sampleTender 1 "qualified" false], nextId := 2 }

/-- A raw scraped candidate with a chosen posted date. -/
def rawSample (pd : String) : RawTender :=
  { title := "Build ERP", organization := "UNDP", posted_date := pd,
    closing_date := "2024-02-10", location := "Hargeisa",
    url := "https://example.org/t", rsource := "globaltenders",
    tender_content := "ERP implementation" }

theorem setField_id (r : Tender) (f : String) (v : FieldValue) :
    (setField r f v).id = r.id := by
  cases v <;> simp only [setField] <;> split_ifs <;> rfl

theorem setField_state_state (r : Tender) (s : String) :
    (setField r "state" (.str s)).state = s := rfl

theorem setField_state_is_sent (r : Tender) (s : String) :
    (setField r "state" (.str s)).is_sent = r.is_sent := rfl

theorem setField_sent_is_sent (r : Tender) (b : Bool) :
    (setField r "is_sent" (.bool b)).is_sent = b := rfl

theorem setField_sent_state (r : Tender) (b : Bool) :
    (setField r "is_sent" (.bool b)).state = r.state := rfl

theorem update_tender_state_eq (st : Store) (tid : Nat) (ns : String) :
    update_tender_state st tid ns =
      { st with rows :=
          st.rows.map (fun r => if r.id == tid then setField r "state" (.str ns) else r) } := rfl

theorem mark_tender_as_sent_eq (st : Store) (tid : Nat) :
    mark_tender_as_sent st tid =
      { st with rows :=
          st.rows.map (fun r => if r.id == tid then setField r "is_sent" (.bool true) else r) } := rfl

theorem classifyElem_cons (qts : List Tender) (h : Tender) (rest : List Tender)
    (r : Tender) :
    classifyElem qts (h :: rest) r =
      classifyElem qts rest
        (if r.id == h.id then setField r "state" (.str (classify_state qts h.id))
         else r) := rfl

theorem sentElem_cons (sendOk : Nat → Bool) (h : Tender) (rest : List Tender)
    (r : Tender) :
    sentElem sendOk (h :: rest) r =
      sentElem sendOk rest
        (if sendOk h.id then
           (if r.id == h.id then setField r "is_sent" (.bool true) else r)
         else r) := rfl

theorem classifyElem_id (qts ts : List Tender) (r : Tender) :
    (classifyElem qts ts r).id = r.id := by
  induction ts generalizing r with
  | nil => rfl
  | cons h rest ih =>
    rw [classifyElem_cons, ih]
    split <;> simp [setField_id]

theorem sentElem_id (sendOk : Nat → Bool) (ts : List Tender) (r : Tender) :
    (sentElem sendOk ts r).id = r.id := by
  induction ts generalizing r with
  | nil => rfl
  | cons h rest ih =>
    rw [sentElem_cons, ih]
    split
    · split <;> simp [setField_id]
    · rfl

theorem classifyElem_not_mem (qts ts : List Tender) (r : Tender)
    (h : ∀ t ∈ ts, t.id ≠ r.id) : classifyElem qts ts r = r := by
  induction ts with
  | nil => rfl
  | cons hd rest ih =>
    have hne : (r.id == hd.id) = false := by
      simp only [beq_eq_false_iff_ne, ne_eq]
      intro he
      exact h hd (by simp) he.symm
    rw [classifyElem_cons, hne]
    exact ih (fun t ht => h t (by simp [ht]))

theorem filter_fold_rows (qts ts : List Tender) (st : Store) :
    ts.foldl (fun acc t => update_tender_state acc t.id (classify_state qts t.id)) st =
      { st with rows := st.rows.map (classifyElem qts ts) } := by
  induction ts generalizing st with
  | nil =>
    simp only [show (classifyElem qts []) = fun r => r from rfl, List.map_id']
    rfl
  | cons h rest ih =>
    rw [List.foldl_cons, update_tender_state_eq, ih]
    simp only [List.map_map]
    rfl

theorem send_fold_eq (sendOk : Nat → Bool) (ts : List Tender) (st : Store)
    (a b : Nat) :
    ts.foldl
      (fun acc t =>
        if sendOk t.id then
          (mark_tender_as_sent acc.1 t.id, acc.2.1 + 1, acc.2.2 + 1)
        else (acc.1, acc.2.1 + 1, acc.2.2)) (st, a, b) =
      ({ st with rows := st.rows.map (sentElem sendOk ts) },
       a + ts.length, b + ts.countP (fun t => sendOk t.id)) := by
  induction ts generalizing st a b with
  | nil =>
    simp only [List.foldl_nil, List.length_nil, List.countP_nil, Nat.add_zero]
    rw [show (sentElem sendOk []) = fun r => r from rfl, List.map_id']
  | cons h rest ih =>
    rw [List.foldl_cons]
    by_cases hs : sendOk h.id = true
    · rw [if_pos hs, ih, mark_tender_as_sent_eq]
      simp only [List.map_map, List.length_cons, List.countP_cons, hs, if_pos]
      simp only [Prod.mk.injEq]
      refine ⟨?_, by omega, by omega⟩
      congr 1
      apply List.map_congr_left
      intro r _
      simp only [Function.comp_apply, sentElem_cons, hs, if_pos]
    · rw [if_neg hs, ih]
      have hs' : sendOk h.id = false := by
        cases hsv : sendOk h.id
        · rfl
        · exact absurd hsv hs
      simp only [List.length_cons, List.countP_cons, hs']
      simp only [Prod.mk.injEq]
      refine ⟨?_, by omega, by simp⟩
      congr 1
      apply List.map_congr_left
      intro r _
      simp only [sentElem_cons, hs']
      simp

theorem classifyElem_mem (qts ts : List Tender) (r t : Tender)
    (hnd : (ts.map Tender.id).Nodup) (ht : t ∈ ts) (hid : t.id = r.id) :
    (classifyElem qts ts r).state = classify_state qts t.id := by
  induction ts generalizing r with
  | nil => cases ht
  | cons hd rest ih =>
    rw [classifyElem_cons]
    simp only [List.map_cons, List.nodup_cons, List.mem_map] at hnd
    rcases List.mem_cons.mp ht with rfl | hmem
    · have hbeq : (r.id == t.id) = true := by simp [hid]
      simp only [hbeq, if_true]
      have hnotin : ∀ t' ∈ rest,
          t'.id ≠ (setField r "state" (.str (classify_state qts t.id))).id := by
        intro t' ht' he
        rw [setField_id, ← hid] at he
        exact hnd.1 ⟨t', ht', he⟩
      rw [classifyElem_not_mem _ _ _ hnotin, setField_state_state]
    · have hne : (r.id == hd.id) = false := by
        simp only [beq_eq_false_iff_ne, ne_eq]
        intro he
        rw [← hid] at he
        exact hnd.1 ⟨t, hmem, he⟩
      simp only [hne, if_false, Bool.false_eq_true]
      exact ih r hnd.2 hmem hid

theorem find?_map_id_pres (rows : List Tender) (g : Tender → Tender)
    (hg : ∀ r, (g r).id = r.id) (tid : Nat) :
    (rows.map g).find? (fun r => r.id == tid) =
      (rows.find? (fun r => r.id == tid)).map g := by
  rw [List.find?_map]
  have hp : ((fun r : Tender => r.id == tid) ∘ g) =
      fun r : Tender => r.id == tid := by
    funext r
    simp [Function.comp, hg]
  rw [hp]

theorem sentElem_state (sendOk : Nat → Bool) (ts : List Tender) (r : Tender) :
    (sentElem sendOk ts r).state = r.state := by
  induction ts generalizing r with
  | nil => rfl
  | cons h rest ih =>
    rw [sentElem_cons, ih]
    by_cases hs : sendOk h.id = true
    · simp only [hs, if_true]
      split <;> simp [setField_sent_state]
    · simp [hs]

theorem sentElem_preserve_true (sendOk : Nat → Bool) (ts : List Tender)
    (r : Tender) (h : r.is_sent = true) :
    (sentElem sendOk ts r).is_sent = true := by
  induction ts generalizing r with
  | nil => exact h
  | cons hd rest ih =>
    rw [sentElem_cons]
    apply ih
    by_cases hs : sendOk hd.id = true
    · simp only [hs, if_true]
      split <;> simp [setField_sent_is_sent, h]
    · simp [hs, h]

theorem sentElem_hit (sendOk : Nat → Bool) (ts : List Tender) (r : Tender)
    (h : ∃ t ∈ ts, t.id = r.id ∧ sendOk t.id = true) :
    (sentElem sendOk ts r).is_sent = true := by
  induction ts generalizing r with
  | nil => rcases h with ⟨t, ht, _⟩; cases ht
  | cons hd rest ih =>
    rw [sentElem_cons]
    rcases h with ⟨t, ht, hid, hsk⟩
    rcases List.mem_cons.mp ht with rfl | hmem
    · rw [if_pos hsk]
      have hm : (r.id == t.id) = true := by simp [hid]
      rw [hm]
      simp only [if_true]
      exact sentElem_preserve_true _ _ _ (setField_sent_is_sent r true)
    · apply ih
      refine ⟨t, hmem, ?_, hsk⟩
      by_cases hs : sendOk hd.id = true
      · simp only [hs, if_true]
        split
        · rw [setField_id, hid]
        · exact hid
      · simp [hs, hid]

theorem sentElem_true_source (sendOk : Nat → Bool) (ts : List Tender)
    (r : Tender) (h : (sentElem sendOk ts r).is_sent = true) :
    r.is_sent = true ∨ ∃ t ∈ ts, t.id = r.id ∧ sendOk t.id = true := by
  induction ts generalizing r with
  | nil => exact .inl h
  | cons hd rest ih =>
    rw [sentElem_cons] at h
    by_cases hs : sendOk hd.id = true
    · rw [if_pos hs] at h
      by_cases hm : (r.id == hd.id) = true
      · refine .inr ⟨hd, List.mem_cons_self hd rest, ?_, hs⟩
        exact (beq_iff_eq.mp hm).symm
      · rw [if_neg (by simp [hm])] at h
        rcases ih r h with h1 | ⟨t, ht, hid, hsk⟩
        · exact .inl h1
        · exact .inr ⟨t, List.mem_cons_of_mem hd ht, hid, hsk⟩
    · rw [if_neg hs] at h
      rcases ih r h with h1 | ⟨t, ht, hid, hsk⟩
      · exact .inl h1
      · exact .inr ⟨t, List.mem_cons_of_mem hd ht, hid, hsk⟩

theorem fetch_waiting_eq (st : Store) :
    fetch_waiting_tenders st =
      (st.rows.filter (fun r => r.state == "waiting_for_filtering")).take 8 := rfl

theorem fetch_empty_iff (st : Store) :
    (fetch_waiting_tenders st).isEmpty = true ↔
      count_tenders_by_state st "waiting_for_filtering" = 0 := by
  rw [fetch_waiting_eq, count_tenders_by_state, List.isEmpty_iff,
    List.take_eq_nil_iff, List.countP_eq_length_filter, List.length_eq_zero]
  constructor
  · rintro (h8 | hf)
    · cases h8
    · exact hf
  · intro h
    exact Or.inr h

theorem tender_filter_node_eq (st : Store) (qts : List Tender)
    (h : (fetch_waiting_tenders st).isEmpty = false) :
    tender_filter_node st qts =
      { st with rows :=
          st.rows.map (classifyElem qts (fetch_waiting_tenders st)) } := by
  unfold tender_filter_node
  simp only [h, Bool.false_eq_true, if_false]
  exact filter_fold_rows qts (fetch_waiting_tenders st) st

theorem tender_filter_node_empty (st : Store) (qts : List Tender)
    (h : (fetch_waiting_tenders st).isEmpty = true) :
    tender_filter_node st qts = st := by
  unfold tender_filter_node
  simp only [h, if_true]

theorem classify_state_ne_waiting (qts : List Tender) (tid : Nat) :
    (classify_state qts tid == "waiting_for_filtering") = false := by
  unfold classify_state
  split <;> rfl

theorem tender_filter_node_ids (st : Store) (qts : List Tender) :
    (tender_filter_node st qts).rows.map Tender.id = st.rows.map Tender.id := by
  cases he : (fetch_waiting_tenders st).isEmpty
  · rw [tender_filter_node_eq st qts he]
    simp only [List.map_map]
    apply List.map_congr_left
    intro r _
    simp [Function.comp, classifyElem_id]
  · rw [tender_filter_node_empty st qts he]

theorem count_after_round (st : Store) (qts : List Tender)
    (hnd : (st.rows.map Tender.id).Nodup) :
    count_tenders_by_state (tender_filter_node st qts) "waiting_for_filtering" =
      count_tenders_by_state st "waiting_for_filtering" -
        min 8 (count_tenders_by_state st "waiting_for_filtering") := by
  cases he : (fetch_waiting_tenders st).isEmpty
  · -- nonempty batch
    set pW : Tender → Bool := fun r => r.state == "waiting_for_filtering" with hpW
    set Wl : List Tender := st.rows.filter pW with hWl
    set waiting : List Tender := fetch_waiting_tenders st with hwt
    set q : Tender → Bool := fun r => waiting.any (fun t => t.id == r.id) with hq
    have hwtake : waiting = Wl.take 8 := fetch_waiting_eq st
    have hndW : (Wl.map Tender.id).Nodup :=
      List.Nodup.sublist (List.Sublist.map Tender.id (List.filter_sublist st.rows)) hnd
    have hndw : (waiting.map Tender.id).Nodup := by
      rw [hwtake]
      exact List.Nodup.sublist (List.Sublist.map Tender.id (List.take_sublist 8 Wl)) hndW
    have hrows : (tender_filter_node st qts).rows =
        st.rows.map (classifyElem qts waiting) := by
      rw [tender_filter_node_eq st qts he]
    have hcount' : count_tenders_by_state (tender_filter_node st qts)
        "waiting_for_filtering" =
        st.rows.countP (fun r => pW r && !(q r)) := by
      rw [count_tenders_by_state, hrows, List.countP_map]
      apply List.countP_congr
      intro r _
      by_cases hqr : q r = true
      · rcases List.any_eq_true.mp hqr with ⟨t, htw, hbeq⟩
        have hst : (classifyElem qts waiting r).state = classify_state qts t.id :=
          classifyElem_mem qts waiting r t hndw htw (beq_iff_eq.mp hbeq)
        simp [Function.comp, hst, classify_state_ne_waiting, hqr]
      · have hnm : ∀ t ∈ waiting, t.id ≠ r.id := by
          intro t ht hte
          exact hqr (List.any_eq_true.mpr ⟨t, ht, beq_iff_eq.mpr hte⟩)
        have hel : classifyElem qts waiting r = r := classifyElem_not_mem qts waiting r hnm
        simp only [Function.comp_apply, hel]
        cases hv : q r
        · simp [hpW]
        · exact absurd hv hqr
    have hsplit : Wl.length = Wl.countP q + Wl.countP (fun a => !(q a)) := by
      have := List.length_eq_countP_add_countP q Wl
      rw [this]
      congr 1
      apply List.countP_congr
      intro r _
      cases hv : q r <;> simp [hv]
    have htail : st.rows.countP (fun r => pW r && !(q r)) =
        Wl.countP (fun a => !(q a)) := by
      rw [hWl, List.countP_filter]
      apply List.countP_congr
      intro r _
      cases hv : q r <;> cases hw : pW r <;> simp [hv, hw]
    have hhead : Wl.countP q = waiting.length := by
      conv_lhs => rw [← List.take_append_drop 8 Wl]
      rw [List.countP_append]
      have h1 : (Wl.take 8).countP q = (Wl.take 8).length := by
        rw [List.countP_eq_length]
        intro t ht
        apply List.any_eq_true.mpr
        exact ⟨t, hwtake ▸ ht, beq_self_eq_true t.id⟩
      have h2 : (Wl.drop 8).countP q = 0 := by
        rw [List.countP_eq_zero]
        intro r hr hqr
        rcases List.any_eq_true.mp hqr with ⟨t, htw, hbeq⟩
        have hdisj : (List.map Tender.id (Wl.take 8)).Disjoint
            (List.map Tender.id (Wl.drop 8)) := by
          have := hndW
          rw [← List.take_append_drop 8 Wl, List.map_append, List.nodup_append] at this
          exact this.2.2
        apply hdisj (a := t.id)
        · exact List.mem_map.mpr ⟨t, hwtake ▸ htw, rfl⟩
        · rw [beq_iff_eq.mp hbeq]
          exact List.mem_map.mpr ⟨r, hr, rfl⟩
      rw [h1, h2, hwtake]
      omega
    have hwlen : waiting.length = min 8 Wl.length := by
      rw [hwtake, List.length_take]
    have hcst : count_tenders_by_state st "waiting_for_filtering" = Wl.length := by
      rw [count_tenders_by_state, hWl, List.countP_eq_length_filter]
    rw [hcount', htail, hcst]
    omega
  · -- empty batch
    rw [tender_filter_node_empty st qts he]
    have h0 := (fetch_empty_iff st).mp he
    rw [h0]
    simp

theorem mem_insertByDate (t x : Tender) (l : List Tender) :
    x ∈ insertByDate t l ↔ x = t ∨ x ∈ l := by
  induction l with
  | nil => simp [insertByDate]
  | cons h rest ih =>
    unfold insertByDate
    split
    · simp [List.mem_cons]
    · simp only [List.mem_cons, ih]
      tauto

theorem mem_sortByPostedDesc (x : Tender) (l : List Tender) :
    x ∈ sortByPostedDesc l ↔ x ∈ l := by
  induction l with
  | nil => simp [sortByPostedDesc]
  | cons h rest ih =>
    show x ∈ insertByDate h (sortByPostedDesc rest) ↔ _
    rw [mem_insertByDate, ih]
    simp [List.mem_cons]

theorem length_insertByDate (t : Tender) (l : List Tender) :
    (insertByDate t l).length = l.length + 1 := by
  induction l with
  | nil => rfl
  | cons h rest ih =>
    unfold insertByDate
    split
    · simp
    · simp [ih]

theorem length_sortByPostedDesc (l : List Tender) :
    (sortByPostedDesc l).length = l.length := by
  induction l with
  | nil => rfl
  | cons h rest ih =>
    show (insertByDate h (sortByPostedDesc rest)).length = _
    rw [length_insertByDate, ih]
    rfl

theorem sortByPostedDesc_eq_nil (l : List Tender) :
    sortByPostedDesc l = [] ↔ l = [] := by
  constructor
  · intro h
    have := length_sortByPostedDesc l
    rw [h] at this
    exact List.length_eq_zero.mp this.symm
  · rintro rfl
    rfl

theorem sentElem_not_hit (sendOk : Nat → Bool) (ts : List Tender) (r : Tender)
    (h : ∀ t ∈ ts, t.id = r.id → sendOk t.id = false) :
    sentElem sendOk ts r = r := by
  induction ts generalizing r with
  | nil => rfl
  | cons hd rest ih =>
    rw [sentElem_cons]
    have hstep : (if sendOk hd.id = true then
        (if r.id == hd.id then setField r "is_sent" (.bool true) else r)
      else r) = r := by
      by_cases hs : sendOk hd.id = true
      · rw [if_pos hs]
        have hm : (r.id == hd.id) = false := by
          simp only [beq_eq_false_iff_ne, ne_eq]
          intro he
          rw [h hd (List.mem_cons_self hd rest) he.symm] at hs
          cases hs
        simp [hm]
      · rw [if_neg hs]
    rw [hstep]
    exact ih r (fun t ht => h t (List.mem_cons_of_mem hd ht))

theorem classifyElem_congr (qts qts' ts : List Tender) (r : Tender)
    (h : ∀ t ∈ ts, classify_state qts t.id = classify_state qts' t.id) :
    classifyElem qts ts r = classifyElem qts' ts r := by
  induction ts generalizing r with
  | nil => rfl
  | cons hd rest ih =>
    rw [classifyElem_cons, classifyElem_cons, h hd (List.mem_cons_self hd rest)]
    exact ih _ (fun t ht => h t (List.mem_cons_of_mem hd ht))

theorem classify_state_filter (qts waiting : List Tender) (t : Tender)
    (ht : t ∈ waiting) :
    classify_state
        (qts.filter (fun qt => waiting.any (fun w => w.id == qt.id))) t.id =
      classify_state qts t.id := by
  have hany : (qts.filter (fun qt => waiting.any (fun w => w.id == qt.id))).any
      (fun qt => qt.id == t.id) = qts.any (fun qt => qt.id == t.id) := by
    rw [List.any_filter]
    cases hv : qts.any (fun qt => qt.id == t.id)
    · rw [List.any_eq_false]
      intro qt hqt hb
      rcases Bool.and_eq_true_iff.mp hb with ⟨_, hb2⟩
      exact (List.any_eq_false.mp hv qt hqt) hb2
    · rcases List.any_eq_true.mp hv with ⟨qt, hqt, hb⟩
      apply List.any_eq_true.mpr
      refine ⟨qt, hqt, ?_⟩
      have hw : waiting.any (fun w => w.id == qt.id) = true := by
        apply List.any_eq_true.mpr
        refine ⟨t, ht, ?_⟩
        rw [beq_iff_eq.mp hb]
        exact beq_self_eq_true t.id
      rw [hw, hb]
      rfl
  unfold classify_state
  rw [hany]

theorem count_pos_iff_fetch_nonempty (st : Store) :
    0 < count_tenders_by_state st "waiting_for_filtering" ↔
      (fetch_waiting_tenders st).isEmpty = false := by
  constructor
  · intro h
    cases hv : (fetch_waiting_tenders st).isEmpty
    · rfl
    · have := (fetch_empty_iff st).mp hv
      omega
  · intro h
    by_contra hc
    have h0 : count_tenders_by_state st "waiting_for_filtering" = 0 := by omega
    rw [(fetch_empty_iff st).mpr h0] at h
    cases h


theorem process_singleton_new (st : Store) (t : RawTender)
    (h : tender_exists st (sanitize_tender t).title
        (sanitize_tender t).posted_date = false) :
    process_scraped_tenders st [t] =
      (insert_new_tender st (sanitize_tender t), 1) := by
  simp [process_scraped_tenders, h]

theorem insert_new_tender_length (st : Store) (t : RawTender) :
    (insert_new_tender st t).rows.length = st.rows.length + 1 := by
  simp [insert_new_tender]

/-- C5: `update_tender_field` rejects any field name outside the fixed
whitelist with the invalid-field error and performs no update, and for a
whitelisted field it reports true exactly when a record with the given id
exists (false for an unknown id). -/
theorem claim_C5 (rows : List Tender) (tid : Nat) (field : String)
    (v : FieldValue) :
    (fieldWhitelist.contains field = false →
      update_tender_field rows tid field v = .error "Invalid field name") ∧
    (fieldWhitelist.contains field = true →
      ∃ rows' affected,
        update_tender_field rows tid field v = .ok (rows', affected) ∧
        (affected = true ↔ ∃ r ∈ rows, r.id = tid)) := by
  constructor
  · intro h
    unfold update_tender_field
    rw [h]
    simp
  · intro h
    unfold update_tender_field
    rw [h]
    simp only [if_true]
    refine ⟨_, _, rfl, ?_⟩
    simp [List.any_eq_true]

theorem claim_C5_witness :
    (update_tender_field (waitingStore 2).rows 1 "not_a_field" (.str "x") =
      .error "Invalid field name") ∧
    (∃ rows' affected,
      update_tender_field (waitingStore 2).rows 1 "state" (.str "qualified") =
        .ok (rows', affected) ∧
      (affected = true ↔ ∃ r ∈ (waitingStore 2).rows, r.id = 1)) :=
  ⟨(claim_C5 (waitingStore 2).rows 1 "not_a_field" (.str "x")).1 (by decide),
   (claim_C5 (waitingStore 2).rows 1 "state" (.str "qualified")).2 (by decide)⟩

/-- C4: a candidate whose sanitised `(title, posted_date)` pair already
exists in the store is skipped without inserting and without an error, so
the stored rows are unchanged; a candidate whose pair does not exist is
inserted, growing the store by one.  Sanitisation never changes the title
and keeps a valid posted date verbatim. -/
theorem claim_C4 (st : Store) (t : RawTender) :
    (sanitize_tender t).title = t.title ∧
    (is_valid_date t.posted_date = true →
      (sanitize_tender t).posted_date = t.posted_date) ∧
    (tender_exists st (sanitize_tender t).title
        (sanitize_tender t).posted_date = true →
      process_scraped_tenders st [t] = (st, 0)) ∧
    (tender_exists st (sanitize_tender t).title
        (sanitize_tender t).posted_date = false →
      process_scraped_tenders st [t] = (insert_new_tender st (sanitize_tender t), 1) ∧
      (insert_new_tender st (sanitize_tender t)).rows.length =
        st.rows.length + 1) := by
  refine ⟨rfl, ?_, ?_, ?_⟩
  · intro h
    simp [sanitize_tender, h]
  · intro h
    simp [process_scraped_tenders, h]
  · intro h
    exact ⟨process_singleton_new st t h, insert_new_tender_length st (sanitize_tender t)⟩

theorem claim_C4_witness :
    (tender_exists qualifiedStore
        (sanitize_tender (rawSample "2024-01-10")).title
        (sanitize_tender (rawSample "2024-01-10")).posted_date = true) ∧
    process_scraped_tenders qualifiedStore [rawSample "2024-01-10"] =
      (qualifiedStore, 0) ∧
    (tender_exists (waitingStore 0)
        (sanitize_tender (rawSample "2024-01-10")).title
        (sanitize_tender (rawSample "2024-01-10")).posted_date = false) ∧
    process_scraped_tenders (waitingStore 0) [rawSample "2024-01-10"] =
      (insert_new_tender (waitingStore 0)
        (sanitize_tender (rawSample "2024-01-10")), 1) :=
  ⟨by decide,
   (claim_C4 qualifiedStore (rawSample "2024-01-10")).2.2.1 (by decide),
   by decide,
   ((claim_C4 (waitingStore 0) (rawSample "2024-01-10")).2.2.2 (by decide)).1⟩

/-- C10: the dedup key is compared after sanitisation, so two candidates
with the same title and each an invalid posted date collapse onto the pair
(title, empty): processing both is the same as processing only the first,
whatever their other fields are. -/
theorem claim_C10 (st : Store) (c1 c2 : RawTender)
    (htitle : c2.title = c1.title)
    (h1 : is_valid_date c1.posted_date = false)
    (h2 : is_valid_date c2.posted_date = false) :
    process_scraped_tenders st [c1, c2] = process_scraped_tenders st [c1] := by
  have hs1p : (sanitize_tender c1).posted_date = "" := by
    simp [sanitize_tender, h1]
  have hs2p : (sanitize_tender c2).posted_date = "" := by
    simp [sanitize_tender, h2]
  have hs1t : (sanitize_tender c1).title = c1.title := rfl
  have hs2t : (sanitize_tender c2).title = c2.title := rfl
  unfold process_scraped_tenders
  simp only [List.foldl_cons, List.foldl_nil]
  cases hex : tender_exists st (sanitize_tender c1).title
      (sanitize_tender c1).posted_date
  · -- first candidate is inserted; the second then finds the new row
    have hex2 : tender_exists (insert_new_tender st (sanitize_tender c1))
        (sanitize_tender c2).title (sanitize_tender c2).posted_date = true := by
      unfold tender_exists insert_new_tender
      rw [List.any_append]
      apply Bool.or_eq_true_iff.mpr
      right
      simp [hs1p, hs2p, hs1t, hs2t, htitle]
    simp only [hex, Bool.false_eq_true, if_false, hex2, if_true]
  · -- first candidate already exists; so does the second
    have hex2 : tender_exists st (sanitize_tender c2).title
        (sanitize_tender c2).posted_date = true := by
      rw [hs2t, hs2p, htitle]
      rw [hs1t, hs1p] at hex
      exact hex
    simp only [hex, if_true, hex2]

theorem claim_C10_witness :
    process_scraped_tenders (waitingStore 0)
        [rawSample "2024/01/05", rawSample "tomorrow"] =
      process_scraped_tenders (waitingStore 0) [rawSample "2024/01/05"] :=
  claim_C10 (waitingStore 0) (rawSample "2024/01/05") (rawSample "tomorrow")
    rfl (by decide) (by decide)

/-- C6 counterexample: the date "2024-1-5" is not in strict YYYY-MM-DD form
(month and day are not zero padded), yet the code's validator accepts it,
so ingestion stores it verbatim instead of replacing it with the empty
sentinel as the claim requires. -/
theorem claim_C6_counterexample :
    is_valid_date "2024-1-5" = true ∧
    spec_strict_date "2024-1-5" = false ∧
    (sanitize_tender (rawSample "2024-1-5")).posted_date = "2024-1-5" := by
  refine ⟨by decide, by decide, ?_⟩
  simp [sanitize_tender, rawSample, show is_valid_date "2024-1-5" = true by decide]

/-- C6 (amended): `posted_date` and `closing_date` are validated
independently by the code's tolerant parser (four digit year, one or two
digit month and day forming a real calendar date); a missing or
non-matching value is replaced with the empty sentinel rather than
rejected, and the record is still ingested whenever its sanitised dedup
pair is new. -/
theorem claim_C6 (st : Store) (t : RawTender) :
    (sanitize_tender t).posted_date =
      (if is_valid_date t.posted_date then t.posted_date else "") ∧
    (sanitize_tender t).closing_date =
      (if is_valid_date t.closing_date then t.closing_date else "") ∧
    (tender_exists st (sanitize_tender t).title
        (sanitize_tender t).posted_date = false →
      (process_scraped_tenders st [t]).1.rows.length = st.rows.length + 1) := by
  refine ⟨rfl, rfl, ?_⟩
  intro h
  rw [process_singleton_new st t h]
  exact insert_new_tender_length st (sanitize_tender t)

theorem claim_C6_witness :
    (sanitize_tender (rawSample "tomorrow")).posted_date = "" ∧
    (process_scraped_tenders (waitingStore 0)
        [rawSample "tomorrow"]).1.rows.length =
      (waitingStore 0).rows.length + 1 := by
  refine ⟨?_, (claim_C6 (waitingStore 0) (rawSample "tomorrow")).2.2 (by decide)⟩
  rw [(claim_C6 (waitingStore 0) (rawSample "tomorrow")).1]
  decide

/-- C1: after one classification round over a non-empty batch, every batch
member's state is exactly the one dictated by the returned identifier set
(`qualified` when present, `unqualified` otherwise), no batch member stays
in `waiting_for_filtering`, and the qualified plus unqualified transitions
add up to the batch size. -/
theorem claim_C1 (st : Store) (qts : List Tender)
    (hnd : (st.rows.map Tender.id).Nodup)
    (hne : (fetch_waiting_tenders st).isEmpty = false) :
    (∀ t ∈ fetch_waiting_tenders st,
      stateOf (tender_filter_node st qts) t.id =
        some (classify_state qts t.id)) ∧
    (∀ t ∈ fetch_waiting_tenders st,
      stateOf (tender_filter_node st qts) t.id ≠ some "waiting_for_filtering") ∧
    ((fetch_waiting_tenders st).countP
        (fun t => decide
          (stateOf (tender_filter_node st qts) t.id = some "qualified")) +
      (fetch_waiting_tenders st).countP
        (fun t => decide
          (stateOf (tender_filter_node st qts) t.id = some "unqualified")) =
      (fetch_waiting_tenders st).length) := by
  have hsub : (fetch_waiting_tenders st).Sublist st.rows := by
    rw [fetch_waiting_eq]
    exact (List.take_sublist _ _).trans (List.filter_sublist _)
  have hndw : ((fetch_waiting_tenders st).map Tender.id).Nodup :=
    List.Nodup.sublist (List.Sublist.map Tender.id hsub) hnd
  have hmain : ∀ t ∈ fetch_waiting_tenders st,
      stateOf (tender_filter_node st qts) t.id =
        some (classify_state qts t.id) := by
    intro t ht
    rw [stateOf, tender_filter_node_eq st qts hne]
    have hfind := find?_map_id_pres st.rows (classifyElem qts (fetch_waiting_tenders st))
      (classifyElem_id qts (fetch_waiting_tenders st)) t.id
    simp only [] at hfind ⊢
    rw [hfind]
    have htmem : t ∈ st.rows := hsub.mem ht
    have hsome : (st.rows.find? (fun r => r.id == t.id)).isSome :=
      List.find?_isSome.mpr ⟨t, htmem, beq_self_eq_true t.id⟩
    rcases Option.isSome_iff_exists.mp hsome with ⟨r0, hr0⟩
    rw [hr0]
    have hp : (r0.id == t.id) = true := by
      have hq := List.find?_some hr0
      simpa using hq
    have hr0id : r0.id = t.id := beq_iff_eq.mp hp
    simp only [Option.map_map, Option.map_some', Function.comp_apply]
    rw [classifyElem_mem qts (fetch_waiting_tenders st) r0 t hndw ht hr0id.symm]
  refine ⟨hmain, ?_, ?_⟩
  · intro t ht
    rw [hmain t ht]
    intro hcontra
    have hc := Option.some.injEq _ _ ▸ hcontra
    have := classify_state_ne_waiting qts t.id
    rw [Option.some.inj hcontra] at this
    simp at this
  · have hcq : (fetch_waiting_tenders st).countP
        (fun t => decide
          (stateOf (tender_filter_node st qts) t.id = some "qualified")) =
        (fetch_waiting_tenders st).countP
          (fun t => decide (classify_state qts t.id = "qualified")) := by
      apply List.countP_congr
      intro t ht
      rw [hmain t ht]
      simp
    have hcu : (fetch_waiting_tenders st).countP
        (fun t => decide
          (stateOf (tender_filter_node st qts) t.id = some "unqualified")) =
        (fetch_waiting_tenders st).countP
          (fun t => decide (classify_state qts t.id = "unqualified")) := by
      apply List.countP_congr
      intro t ht
      rw [hmain t ht]
      simp
    rw [hcq, hcu]
    have hsplit := List.length_eq_countP_add_countP
      (fun t : Tender => decide (classify_state qts t.id = "qualified"))
      (fetch_waiting_tenders st)
    rw [hsplit]
    congr 1
    apply List.countP_congr
    intro t _
    unfold classify_state
    split <;> simp

theorem claim_C1_witness :
    stateOf (tender_filter_node (waitingStore 2)
      [sampleTender 1 "qualified" false]) 1 = some "qualified" ∧
    stateOf (tender_filter_node (waitingStore 2)
      [sampleTender 1 "qualified" false]) 2 = some "unqualified" := by
  have h := (claim_C1 (waitingStore 2) [sampleTender 1 "qualified" false]
    (by decide) (by decide)).1
  constructor
  · have h1 := h (sampleTender 1 "waiting_for_filtering" false) (by decide)
    exact h1.trans (by decide)
  · have h2 := h (sampleTender 2 "waiting_for_filtering" false) (by decide)
    exact h2.trans (by decide)

/-- C2: classifier output outside the submitted batch has no effect — a
record whose id is not among the batch ids keeps its state, and filtering
the returned listing down to the batch's members leaves the round's result
unchanged, whatever the classifier returned. -/
theorem claim_C2 (st : Store) (qts : List Tender) :
    (∀ tid, tid ∉ (fetch_waiting_tenders st).map Tender.id →
      stateOf (tender_filter_node st qts) tid = stateOf st tid) ∧
    tender_filter_node st qts =
      tender_filter_node st
        (qts.filter
          (fun qt => (fetch_waiting_tenders st).any (fun w => w.id == qt.id))) := by
  constructor
  · intro tid htid
    cases he : (fetch_waiting_tenders st).isEmpty
    · rw [stateOf, stateOf, tender_filter_node_eq st qts he]
      have hfind := find?_map_id_pres st.rows
        (classifyElem qts (fetch_waiting_tenders st))
        (classifyElem_id qts (fetch_waiting_tenders st)) tid
      simp only [] at hfind ⊢
      rw [hfind]
      cases hr0 : st.rows.find? (fun r => r.id == tid)
      · simp
      · rename_i r0
        have hp : (r0.id == tid) = true := by
          have hq := List.find?_some hr0
          simpa using hq
        have hr0id : r0.id = tid := beq_iff_eq.mp hp
        have hnm : ∀ t ∈ fetch_waiting_tenders st, t.id ≠ r0.id := by
          intro t ht hte
          apply htid
          rw [← hr0id]
          exact List.mem_map.mpr ⟨t, ht, hte⟩
        simp only [Option.map_map, Option.map_some', Function.comp_apply]
        rw [classifyElem_not_mem qts (fetch_waiting_tenders st) r0 hnm]
    · rw [tender_filter_node_empty st qts he]
  · cases he : (fetch_waiting_tenders st).isEmpty
    · rw [tender_filter_node_eq st qts he, tender_filter_node_eq st _ he]
      congr 1
      apply List.map_congr_left
      intro r _
      apply classifyElem_congr
      intro t ht
      exact (classify_state_filter qts (fetch_waiting_tenders st) t ht).symm
    · rw [tender_filter_node_empty st qts he, tender_filter_node_empty st _ he]

theorem claim_C2_witness :
    stateOf (tender_filter_node (waitingStore 2)
        [sampleTender 77 "qualified" false]) 77 =
      stateOf (waitingStore 2) 77 ∧
    tender_filter_node (waitingStore 2) [sampleTender 77 "qualified" false] =
      tender_filter_node (waitingStore 2)
        ([sampleTender 77 "qualified" false].filter
          (fun qt =>
            (fetch_waiting_tenders (waitingStore 2)).any
              (fun w => w.id == qt.id))) :=
  ⟨(claim_C2 (waitingStore 2) [sampleTender 77 "qualified" false]).1 77 (by decide),
   (claim_C2 (waitingStore 2) [sampleTender 77 "qualified" false]).2⟩

theorem filter_loop_drains (os : List (Except String (List Tender))) (st : Store)
    (hnd : (st.rows.map Tender.id).Nodup)
    (hok : ∀ o ∈ os, ∃ qts, o = Except.ok qts)
    (hlen : (count_tenders_by_state st "waiting_for_filtering" + 7) / 8 ≤
      os.length) :
    count_tenders_by_state (filter_loop st os).1 "waiting_for_filtering" = 0 ∧
    (filter_loop st os).2.2 ≤
      (count_tenders_by_state st "waiting_for_filtering" + 7) / 8 ∧
    (filter_loop st os).2.1 = none := by
  induction os generalizing st with
  | nil =>
    simp only [filter_loop, List.length_nil] at hlen ⊢
    have h0 : count_tenders_by_state st "waiting_for_filtering" = 0 := by omega
    exact ⟨h0, by omega, trivial⟩
  | cons o rest ih =>
    rcases hok o (List.mem_cons_self o rest) with ⟨qts, rfl⟩
    cases he : (fetch_waiting_tenders st).isEmpty
    · -- non-empty batch: the round runs
      have hW : 0 < count_tenders_by_state st "waiting_for_filtering" :=
        (count_pos_iff_fetch_nonempty st).mpr he
      have hcount' := count_after_round st qts hnd
      have hnd' : ((tender_filter_node st qts).rows.map Tender.id).Nodup := by
        rw [tender_filter_node_ids]
        exact hnd
      simp only [filter_loop, he, Bool.false_eq_true, if_false]
      cases hc : decide (0 < count_tenders_by_state (tender_filter_node st qts)
          "waiting_for_filtering")
      · -- drained in this round
        have hc' : ¬ 0 < count_tenders_by_state (tender_filter_node st qts)
            "waiting_for_filtering" := of_decide_eq_false hc
        rw [if_neg hc']
        refine ⟨?_, ?_, rfl⟩
        · show count_tenders_by_state (tender_filter_node st qts)
            "waiting_for_filtering" = 0
          omega
        · show 1 ≤ (count_tenders_by_state st "waiting_for_filtering" + 7) / 8
          omega
      · have hc' : 0 < count_tenders_by_state (tender_filter_node st qts)
            "waiting_for_filtering" := of_decide_eq_true hc
        rw [if_pos hc']
        have hlen' : (count_tenders_by_state (tender_filter_node st qts)
            "waiting_for_filtering" + 7) / 8 ≤ rest.length := by
          simp only [List.length_cons] at hlen
          omega
        have hrec := ih (tender_filter_node st qts) hnd'
          (fun o ho => hok o (List.mem_cons_of_mem _ ho)) hlen'
        refine ⟨hrec.1, ?_, hrec.2.2⟩
        show (filter_loop (tender_filter_node st qts) rest).2.2 + 1 ≤
          (count_tenders_by_state st "waiting_for_filtering" + 7) / 8
        have hb := hrec.2.1
        omega
    · -- empty batch: loop ends at once, count is already zero
      have h0 := (fetch_empty_iff st).mp he
      simp only [filter_loop, he, if_true]
      exact ⟨h0, by omega, trivial⟩

/-- C3: with W waiting records and batch size 8, a run of the classification
loop on successful classifier rounds drains the store within ceil(W/8)
classifier invocations and reports no error; the loop's routing guard sends
control to END exactly when the waiting count reads zero; and a round that
fetches an empty batch ends the loop without consulting the classifier
result at all. -/
theorem claim_C3 (st : Store) (os : List (Except String (List Tender)))
    (hnd : (st.rows.map Tender.id).Nodup)
    (hok : ∀ o ∈ os, ∃ qts, o = Except.ok qts)
    (hlen : (count_tenders_by_state st "waiting_for_filtering" + 7) / 8 ≤
      os.length) :
    count_tenders_by_state (filter_loop st os).1 "waiting_for_filtering" = 0 ∧
    (filter_loop st os).2.2 ≤
      (count_tenders_by_state st "waiting_for_filtering" + 7) / 8 ∧
    (filter_loop st os).2.1 = none ∧
    (∀ st', should_continue_filtering st' = "END" ↔
      count_tenders_by_state st' "waiting_for_filtering" = 0) ∧
    (∀ o rest, (fetch_waiting_tenders st).isEmpty = true →
      filter_loop st (o :: rest) = (st, none, 0)) := by
  have hd := filter_loop_drains os st hnd hok hlen
  refine ⟨hd.1, hd.2.1, hd.2.2, ?_, ?_⟩
  · intro st'
    unfold should_continue_filtering
    constructor
    · intro h
      by_contra hc
      rw [if_pos (by omega)] at h
      exact absurd h (by decide)
    · intro h
      rw [if_neg (by omega)]
  · intro o rest he
    simp only [filter_loop, he, if_true]

theorem claim_C3_witness :
    count_tenders_by_state
      (filter_loop (waitingStore 2) [Except.ok []]).1 "waiting_for_filtering" = 0 ∧
    (filter_loop (waitingStore 2) [Except.ok []]).2.2 ≤ 1 ∧
    (filter_loop (waitingStore 2) [Except.ok []]).2.1 = none := by
  have h := claim_C3 (waitingStore 2) [Except.ok []] (by decide)
    (by
      intro o ho
      exact ⟨[], List.mem_singleton.mp ho⟩)
    (by decide)
  exact ⟨h.1, h.2.1, h.2.2.1⟩

/-- C9 counterexample: with one record waiting and the store raising during
the batch fetch, the repository catches the error and the node returns
successfully with the store untouched — the invocation does not abort, so
a store error is not fatal as the claim asserts. -/
theorem claim_C9_counterexample :
    count_tenders_by_state (waitingStore 1) "waiting_for_filtering" = 1 ∧
    tender_filter_nodeE (waitingStore 1) false (Except.ok []) =
      Except.ok (waitingStore 1) ∧
    tender_filter_nodeE (waitingStore 1) false (Except.error "db locked") =
      Except.ok (waitingStore 1) := by
  refine ⟨by decide, rfl, rfl⟩

/-- C9 (amended): a classifier invocation error aborts the round with no
transition applied (every batch member still carries state
`waiting_for_filtering` in the store it was fetched from), and in a
two-round run whose second classifier call fails the loop stops with
exactly the store committed by the first round (no rollback, no retry);
a store error during the fetch, however, is caught and yields an empty
batch, so that round returns successfully with the store unchanged. -/
theorem claim_C9 (st : Store) (e : String) (q1 : List Tender)
    (rest : List (Except String (List Tender))) :
    ((fetch_waiting_tenders st).isEmpty = false →
      tender_filter_nodeE st true (Except.error e) = Except.error e) ∧
    (∀ clRes, tender_filter_nodeE st false clRes = Except.ok st) ∧
    (∀ t ∈ fetch_waiting_tenders st, t.state = "waiting_for_filtering") ∧
    ((fetch_waiting_tenders st).isEmpty = false →
      0 < count_tenders_by_state (tender_filter_node st q1)
        "waiting_for_filtering" →
      filter_loop st (Except.ok q1 :: Except.error e :: rest) =
        (tender_filter_node st q1, some e, 2)) := by
  refine ⟨?_, ?_, ?_, ?_⟩
  · intro he
    unfold tender_filter_nodeE fetch_waiting_tendersE
    simp only [if_true, he, Bool.false_eq_true, if_false]
  · intro clRes
    rfl
  · intro t ht
    rw [fetch_waiting_eq] at ht
    have ht' := (List.take_sublist 8 _).mem ht
    have := (List.mem_filter.mp ht').2
    exact beq_iff_eq.mp this
  · intro he hc
    have he2 : (fetch_waiting_tenders (tender_filter_node st q1)).isEmpty = false :=
      (count_pos_iff_fetch_nonempty (tender_filter_node st q1)).mp hc
    simp only [filter_loop, he, Bool.false_eq_true, if_false, hc, if_pos, he2]

theorem claim_C9_witness :
    tender_filter_nodeE (waitingStore 9) true (Except.error "LLM down") =
      Except.error "LLM down" ∧
    filter_loop (waitingStore 9)
        [Except.ok [], Except.error "LLM down"] =
      (tender_filter_node (waitingStore 9) [], some "LLM down", 2) :=
  ⟨(claim_C9 (waitingStore 9) "LLM down" [] []).1 (by decide),
   (claim_C9 (waitingStore 9) "LLM down" [] []).2.2.2 (by decide) (by decide)⟩

/-- C7 counterexample: with one qualified unsent record whose first-run send
fails, no newly qualified record appears between runs (the store is
unchanged), yet the second run performs one attempt and one successful
send — so re-running the dispatcher is not always send-free. -/
theorem claim_C7_counterexample :
    (notification_node qualifiedStore (fun _ => false)).1 = qualifiedStore ∧
    (notification_node qualifiedStore (fun _ => false)).2.1 = 1 ∧
    (notification_node
        ((notification_node qualifiedStore (fun _ => false)).1)
        (fun _ => true)).2.1 = 1 ∧
    (notification_node
        ((notification_node qualifiedStore (fun _ => false)).1)
        (fun _ => true)).2.2 = 1 := by
  refine ⟨rfl, rfl, rfl, rfl⟩

/-- C7 (amended): the dispatcher's query selects only records with
state qualified and sent flag false; and provided every send of the first
run succeeds, each sent record's flag becomes true, the second run fetches
nothing and performs zero attempts and zero sends. -/
theorem claim_C7 (st : Store) (sendOk : Nat → Bool)
    (hall : ∀ t ∈ fetch_qualified_unsent_tenders st, sendOk t.id = true) :
    (∀ t ∈ fetch_qualified_unsent_tenders st,
      t.state = "qualified" ∧ t.is_sent = false) ∧
    fetch_qualified_unsent_tenders (notification_node st sendOk).1 = [] ∧
    (∀ sendOk2,
      notification_node (notification_node st sendOk).1 sendOk2 =
        ((notification_node st sendOk).1, 0, 0)) := by
  have hsel : ∀ t ∈ fetch_qualified_unsent_tenders st,
      t.state = "qualified" ∧ t.is_sent = false := by
    intro t ht
    rw [fetch_qualified_unsent_tenders, get_tenders_by_state_and_sent,
      mem_sortByPostedDesc] at ht
    have hp := (List.mem_filter.mp ht).2
    rcases Bool.and_eq_true_iff.mp hp with ⟨h1, h2⟩
    exact ⟨beq_iff_eq.mp h1, by simpa using h2⟩
  have hempty : fetch_qualified_unsent_tenders (notification_node st sendOk).1 = [] := by
    cases hfe : (fetch_qualified_unsent_tenders st).isEmpty
    · -- non-empty fetch: the send loop runs and marks everything sent
      have hrows : (notification_node st sendOk).1 =
          { st with rows :=
              st.rows.map (sentElem sendOk (fetch_qualified_unsent_tenders st)) } := by
        unfold notification_node
        simp only [hfe, Bool.false_eq_true, if_false]
        unfold send_tender_notifications
        rw [send_fold_eq]
      rw [hrows, fetch_qualified_unsent_tenders, get_tenders_by_state_and_sent]
      rw [sortByPostedDesc_eq_nil]
      rw [List.filter_eq_nil_iff]
      intro r' hr'
      rcases List.mem_map.mp hr' with ⟨r, hr, rfl⟩
      intro hp
      rcases Bool.and_eq_true_iff.mp hp with ⟨h1, h2⟩
      have hstate : r.state = "qualified" := by
        rw [← sentElem_state sendOk (fetch_qualified_unsent_tenders st) r]
        exact beq_iff_eq.mp h1
      have hsent' : (sentElem sendOk (fetch_qualified_unsent_tenders st) r).is_sent
          = false := by simpa using h2
      cases hrs : r.is_sent
      · -- r was qualified and unsent, hence fetched and successfully sent
        have hrmem : r ∈ fetch_qualified_unsent_tenders st := by
          rw [fetch_qualified_unsent_tenders, get_tenders_by_state_and_sent,
            mem_sortByPostedDesc, List.mem_filter]
          refine ⟨hr, ?_⟩
          rw [Bool.and_eq_true_iff]
          exact ⟨beq_iff_eq.mpr hstate, by simp [hrs]⟩
        have := sentElem_hit sendOk (fetch_qualified_unsent_tenders st) r
          ⟨r, hrmem, rfl, hall r hrmem⟩
        rw [this] at hsent'
        cases hsent'
      · -- r was already sent: the flag stays true
        have := sentElem_preserve_true sendOk
          (fetch_qualified_unsent_tenders st) r hrs
        rw [this] at hsent'
        cases hsent'
    · -- empty fetch: the node does nothing
      have hnode : (notification_node st sendOk).1 = st := by
        unfold notification_node
        simp only [hfe, if_true]
      rw [hnode]
      exact List.isEmpty_iff.mp hfe
  refine ⟨hsel, hempty, ?_⟩
  have hgen : ∀ st' sOk, fetch_qualified_unsent_tenders st' = [] →
      notification_node st' sOk = (st', 0, 0) := by
    intro st' sOk h
    unfold notification_node
    simp only [h, List.isEmpty_nil, if_true]
  intro sendOk2
  exact hgen _ sendOk2 hempty

theorem claim_C7_witness :
    fetch_qualified_unsent_tenders
      (notification_node qualifiedStore (fun _ => true)).1 = [] ∧
    notification_node
      (notification_node qualifiedStore (fun _ => true)).1 (fun _ => false) =
      ((notification_node qualifiedStore (fun _ => true)).1, 0, 0) :=
  ⟨(claim_C7 qualifiedStore (fun _ => true) (by decide)).2.1,
   (claim_C7 qualifiedStore (fun _ => true) (by decide)).2.2 (fun _ => false)⟩

/-- C8: the send loop attempts every fetched record exactly once whatever
failures occur (attempts equal the list length), a record all of whose
attempts fail keeps its previous sent flag, and a record's flag can become
true only if it already was true or some listed tender with its id was
sent successfully; successes are counted per successful send. -/
theorem claim_C8 (st : Store) (sendOk : Nat → Bool) (tenders : List Tender)
    (tid : Nat) :
    (send_tender_notifications st sendOk tenders).2.1 = tenders.length ∧
    (send_tender_notifications st sendOk tenders).2.2 =
      tenders.countP (fun t => sendOk t.id) ∧
    ((∀ t ∈ tenders, t.id = tid → sendOk t.id = false) →
      isSentOf (send_tender_notifications st sendOk tenders).1 tid =
        isSentOf st tid) ∧
    (isSentOf (send_tender_notifications st sendOk tenders).1 tid = some true →
      isSentOf st tid = some true ∨
        ∃ t ∈ tenders, t.id = tid ∧ sendOk t.id = true) := by
  have hfold := send_fold_eq sendOk tenders st 0 0
  have h1 : send_tender_notifications st sendOk tenders =
      ({ st with rows := st.rows.map (sentElem sendOk tenders) },
       tenders.length, tenders.countP (fun t => sendOk t.id)) := by
    unfold send_tender_notifications
    rw [hfold]
    simp
  rw [h1]
  refine ⟨rfl, rfl, ?_, ?_⟩
  · intro hfail
    rw [isSentOf, isSentOf]
    have hfind := find?_map_id_pres st.rows (sentElem sendOk tenders)
      (sentElem_id sendOk tenders) tid
    simp only [] at hfind ⊢
    rw [hfind]
    cases hr0 : st.rows.find? (fun r => r.id == tid)
    · simp
    · rename_i r0
      have hp : (r0.id == tid) = true := by
        have hq := List.find?_some hr0
        simpa using hq
      have hr0id : r0.id = tid := beq_iff_eq.mp hp
      have hnh : sentElem sendOk tenders r0 = r0 :=
        sentElem_not_hit sendOk tenders r0
          (fun t ht hte => hfail t ht (hr0id ▸ hte))
      simp only [Option.map_map, Option.map_some', Function.comp_apply, hnh]
  · intro htrue
    rw [isSentOf] at htrue
    have hfind := find?_map_id_pres st.rows (sentElem sendOk tenders)
      (sentElem_id sendOk tenders) tid
    simp only [] at hfind htrue
    rw [hfind] at htrue
    cases hr0 : st.rows.find? (fun r => r.id == tid)
    · rw [hr0] at htrue
      simp at htrue
    · rename_i r0
      rw [hr0] at htrue
      simp only [Option.map_map, Option.map_some', Function.comp_apply] at htrue
      have hp : (r0.id == tid) = true := by
        have hq := List.find?_some hr0
        simpa using hq
      have hr0id : r0.id = tid := beq_iff_eq.mp hp
      have htrue' : (sentElem sendOk tenders r0).is_sent = true :=
        Option.some.inj htrue
      rcases sentElem_true_source sendOk tenders r0 htrue' with hold | ⟨t, ht, hidr, hsk⟩
      · left
        rw [isSentOf, hr0]
        simp [hold]
      · right
        exact ⟨t, ht, hr0id ▸ hidr, hsk⟩

theorem claim_C8_witness :
    (send_tender_notifications qualifiedStore (fun _ => false)
      [sampleTender 1 "qualified" false]).2.1 = 1 ∧
    isSentOf (send_tender_notifications qualifiedStore (fun _ => false)
      [sampleTender 1 "qualified" false]).1 1 = isSentOf qualifiedStore 1 := by
  have h := claim_C8 qualifiedStore (fun _ => false)
    [sampleTender 1 "qualified" false] 1
  exact ⟨by rw [h.1]; rfl, h.2.2.1 (by decide)⟩
